import Mathlib

/-!
Verification of the Stevenson (WA) city-meetings scraper mixin
(city_scrapers/mixins/colgo_stevenson_city.py).

The mixin's pure logic is embedded shallowly:
HTML rows become records of the already-extracted selector results, machine
strings become Lean strings (restricted to the ASCII character operations the
source actually performs), the regular expressions of the title cleaner become
an explicit backtracking matcher over the exact anchored patterns of the
source, and the datetime parser models the try/except flow with Except.
-/

set_option maxHeartbeats 1000000

namespace ColgoStevenson

/-- Characters treated as whitespace: the ASCII whitespace characters, which
are exactly what Python's str.strip and the regex class of whitespace match on
the ASCII inputs this site produces. -/
def isSpaceChar (c : Char) : Bool :=
  c == ' ' || c == '\t' || c == '\n' || c == '\r' ||
    c == Char.ofNat 11 || c == Char.ofNat 12

/-- Python str.strip: drop whitespace from both ends of the character list. -/
def stripChars (l : List Char) : List Char :=
  ((l.dropWhile isSpaceChar).reverse.dropWhile isSpaceChar).reverse

/-- Syntax of the anchored regular expressions used by the title cleaner.
Every quantifier in the source's eight patterns applies to a single character
class, so a star over a class is the only looping construct needed. -/
inductive Pat where
  | eps
  | cls (p : Char → Bool)
  | seq (a b : Pat)
  | alt (a b : Pat)
  | star (p : Char → Bool)

/-- Greedy star of a character class in continuation-passing style: the
longest run is tried first and the matcher backtracks one character at a
time, exactly as Python's backtracking engine does for a greedy quantifier
over a character class. -/
def runStar (p : Char → Bool) (s : List Char) (k : List Char → Option (List Char)) :
    Option (List Char) :=
  match s with
  | [] => k []
  | c :: t =>
    if p c then (runStar p t k).orElse (fun _ => k (c :: t)) else k (c :: t)

/-- Backtracking matcher in continuation-passing style. Alternatives are
tried in listed order with full backtracking through the continuation, which
is Python's regex semantics for these patterns. -/
def runPat (pat : Pat) (s : List Char) (k : List Char → Option (List Char)) :
    Option (List Char) :=
  match pat with
  | .eps => k s
  | .cls p =>
    match s with
    | [] => none
    | c :: t => if p c then k t else none
  | .seq a b => runPat a s (fun s1 => runPat b s1 k)
  | .alt a b => (runPat a s k).orElse (fun _ => runPat b s k)
  | .star p => runStar p s k

/-- Model of re.sub with a pattern anchored at the start of the string and an
empty replacement: the matched leading segment is removed, and a string with
no leading match is returned unchanged. Because every one of the source's
patterns is anchored and can never match the empty string, re.sub performs at
most this one removal. -/
def subAnchored (pat : Pat) (s : List Char) : List Char :=
  match runPat pat s some with
  | some r => r
  | none => s

/-- Literal word as a pattern. -/
def litP (w : String) : Pat :=
  w.data.foldr (fun c acc => Pat.seq (Pat.cls (fun x => x == c)) acc) Pat.eps

/-- Ordered alternation of a list of patterns. -/
def altL (ps : List Pat) : Pat :=
  match ps with
  | [] => Pat.cls (fun _ => false)
  | [p] => p
  | p :: rest => Pat.alt p (altL rest)

/-- Sequence of a list of patterns. -/
def seqL (ps : List Pat) : Pat := ps.foldr Pat.seq Pat.eps

/-- One or more whitespace characters. -/
def spPlus : Pat := Pat.seq (Pat.cls isSpaceChar) (Pat.star isSpaceChar)

/-- Zero or more whitespace characters. -/
def spStar : Pat := Pat.star isSpaceChar

/-- One or more ASCII letters. -/
def alphaPlus : Pat := Pat.seq (Pat.cls Char.isAlpha) (Pat.star Char.isAlpha)

/-- One or two decimal digits, greedy. -/
def d12 : Pat := Pat.seq (Pat.cls Char.isDigit) (Pat.alt (Pat.cls Char.isDigit) Pat.eps)

/-- Exactly four decimal digits. -/
def d4 : Pat :=
  seqL [Pat.cls Char.isDigit, Pat.cls Char.isDigit, Pat.cls Char.isDigit,
    Pat.cls Char.isDigit]

/-- Single literal character. -/
def chP (c : Char) : Pat := Pat.cls (fun x => x == c)

/-- Optional pattern, greedy. -/
def optP (p : Pat) : Pat := Pat.alt p Pat.eps

/-- Alternation of the seven weekday names, in the source's order. -/
def weekdayAlt : Pat :=
  altL [litP "Monday", litP "Tuesday", litP "Wednesday", litP "Thursday",
    litP "Friday", litP "Saturday", litP "Sunday"]

/-- Alternation of the ordinal endings, in the source's order. -/
def ordAlt : Pat := altL [litP "st", litP "nd", litP "rd", litP "th"]

/-- Pattern 1 of the source: weekday name, optional comma, month word, day
number, dash. -/
def pat1 : Pat :=
  seqL [weekdayAlt, optP (chP ','), spPlus, alphaPlus, spPlus, d12, spStar,
    chP '-', spStar]

/-- Pattern 2 of the source: month word, day, ampersand, day. -/
def pat2 : Pat :=
  seqL [alphaPlus, spPlus, d12, spStar, chP '&', spStar, d12, spPlus]

/-- Pattern 3 of the source: month word, day range, year. -/
def pat3 : Pat :=
  seqL [alphaPlus, spPlus, d12, spStar, chP '-', spStar, d12, optP (chP ','),
    spPlus, d4, spPlus]

/-- Pattern 4 of the source: month word, ordinal day. -/
def pat4 : Pat := seqL [alphaPlus, spPlus, d12, ordAlt, spPlus]

/-- Pattern 5 of the source: month word, ordinal day, year. -/
def pat5 : Pat :=
  seqL [alphaPlus, spPlus, d12, ordAlt, optP (chP ','), spPlus, d4, spPlus]

/-- Pattern 6 of the source: month word, day, comma, year, optional dash. -/
def pat6 : Pat :=
  seqL [alphaPlus, spPlus, d12, chP ',', spPlus, d4, spStar, optP (chP '-'),
    spStar]

/-- Pattern 7 of the source: month word, day, dash. -/
def pat7 : Pat := seqL [alphaPlus, spPlus, d12, spStar, chP '-', spStar]

/-- Pattern 8 of the source: month word, four-digit year. -/
def pat8 : Pat := seqL [alphaPlus, spPlus, d4, spPlus]

/-- The ordered pattern list of the source's date_patterns. -/
def datePatterns : List Pat := [pat1, pat2, pat3, pat4, pat5, pat6, pat7, pat8]

/-- Apply every pattern once, in listed order, each as a leading-segment
removal, mirroring the source's loop of re.sub calls. -/
def applyPatterns (s : List Char) : List Char :=
  datePatterns.foldl (fun acc p => subAnchored p acc) s

/-- Body of the title cleaner on character lists: strip, apply the eight
patterns in order, strip again. -/
def cleanChars (l : List Char) : List Char :=
  stripChars (applyPatterns (stripChars l))

/-- Model of the title-cleaning transformation of the source's parse of the
title: a missing (or empty, hence falsy) extracted text is treated as the
empty string, the text is stripped, the ordered date patterns are removed
from the front, and the result is stripped. -/
def clean_title (t : Option String) : String :=
  String.mk (cleanChars (t.getD "").data)

/-- Timezone-naive datetime value, the result type of the datetime parsing
of the source once the offset has been dropped. -/
structure NaiveDT where
  year : Nat
  month : Nat
  day : Nat
  hour : Nat
  minute : Nat
  second : Nat
deriving DecidableEq, Repr

/-- Strict comparison of naive datetimes, field-lexicographic, as Python
compares two datetime objects. -/
def NaiveDT.ltB (a b : NaiveDT) : Bool :=
  if a.year ≠ b.year then a.year < b.year
  else if a.month ≠ b.month then a.month < b.month
  else if a.day ≠ b.day then a.day < b.day
  else if a.hour ≠ b.hour then a.hour < b.hour
  else if a.minute ≠ b.minute then a.minute < b.minute
  else a.second < b.second

/-- Exception kind of the modelled standard-library calls: the only
exception datetime.fromisoformat raises on a malformed string argument. -/
inductive PyExc where
  | valueError
deriving DecidableEq, Repr

/-- Numeric value of a decimal digit character. -/
def digitVal (c : Char) : Option Nat :=
  if c.isDigit then some (c.toNat - 48) else none

/-- Parse exactly two decimal digits. -/
def parse2 (s : List Char) : Option (Nat × List Char) :=
  match s with
  | a :: b :: rest =>
    match digitVal a, digitVal b with
    | some x, some y => some (10 * x + y, rest)
    | _, _ => none
  | _ => none

/-- Parse exactly four decimal digits. -/
def parse4 (s : List Char) : Option (Nat × List Char) :=
  match s with
  | a :: b :: c :: d :: rest =>
    match digitVal a, digitVal b, digitVal c, digitVal d with
    | some x, some y, some z, some w =>
      some (1000 * x + 100 * y + 10 * z + w, rest)
    | _, _, _, _ => none
  | _ => none

/-- Require a specific leading character. -/
def expectChar (c : Char) (s : List Char) : Option (List Char) :=
  match s with
  | [] => none
  | x :: t => if x == c then some t else none

/-- Gregorian leap-year rule, as the Python calendar uses. -/
def isLeapYear (y : Nat) : Bool :=
  (y % 4 == 0 && y % 100 != 0) || y % 400 == 0

/-- Number of days in a month of a year. -/
def daysInMonth (y m : Nat) : Nat :=
  if m = 2 then (if isLeapYear y then 29 else 28)
  else if m = 4 ∨ m = 6 ∨ m = 9 ∨ m = 11 then 30
  else 31

/-- Parse the clock part HH, optionally with minutes and seconds, of an ISO
time string, returning the rest (where a numeric offset may begin). -/
def parseHMS (s : List Char) : Option (Nat × Nat × Nat × List Char) :=
  match parse2 s with
  | none => none
  | some (hh, s1) =>
    match expectChar ':' s1 with
    | none => some (hh, 0, 0, s1)
    | some r =>
      match parse2 r with
      | none => none
      | some (mm, r1) =>
        match expectChar ':' r1 with
        | none => some (hh, mm, 0, r1)
        | some r2 =>
          match parse2 r2 with
          | none => none
          | some (ss, r3) => some (hh, mm, ss, r3)

/-- Parse an optional trailing numeric UTC offset, sign then HH:MM with an
optional :SS, returning the offset in minutes. An empty rest means the
datetime was written without an offset. -/
def parseTz (s : List Char) : Option (Option Int × List Char) :=
  match s with
  | [] => some (none, [])
  | c :: rest =>
    if c == '+' || c == '-' then
      match parse2 rest with
      | none => none
      | some (th, r1) =>
        match expectChar ':' r1 with
        | none => none
        | some r2 =>
          match parse2 r2 with
          | none => none
          | some (tm, r3) =>
            match
              (match expectChar ':' r3 with
              | none => some (0, r3)
              | some r => parse2 r) with
            | none => none
            | some (ts, r4) =>
              if th ≤ 23 ∧ tm ≤ 59 ∧ ts ≤ 59 then
                some (some ((if c == '-' then -1 else 1) *
                  ((th : Int) * 60 + tm)), r4)
              else none
    else none

/-- Modelled from the Python standard library: the core grammar that
datetime.fromisoformat accepts on this site's timestamps, namely
YYYY-MM-DD, optionally followed by a one-character separator and
HH[:MM[:SS]] and an optional numeric offset, with calendar validation of the
fields. Fractional seconds and the compact digit-only forms are outside the
model; the mixin never distinguishes them from a parse failure. Returns the
wall-clock fields together with the offset in minutes. -/
def fromisoCore (s : List Char) : Option (NaiveDT × Option Int) :=
  match parse4 s with
  | none => none
  | some (y, s1) =>
    match expectChar '-' s1 with
    | none => none
    | some s2 =>
      match parse2 s2 with
      | none => none
      | some (mo, s3) =>
        match expectChar '-' s3 with
        | none => none
        | some s4 =>
          match parse2 s4 with
          | none => none
          | some (d, s5) =>
            match
              (match s5 with
              | [] => some (0, 0, 0, (none : Option Int))
              | _sep :: t =>
                match parseHMS t with
                | none => none
                | some (hh, mm, ss, r) =>
                  match parseTz r with
                  | none => none
                  | some (off, r2) =>
                    if r2 = ([] : List Char) then some (hh, mm, ss, off)
                    else none) with
            | none => none
            | some (hh, mm, ss, off) =>
              if 1 ≤ y ∧ 1 ≤ mo ∧ mo ≤ 12 ∧ 1 ≤ d ∧ d ≤ daysInMonth y mo ∧
                  hh ≤ 23 ∧ mm ≤ 59 ∧ ss ≤ 59 then
                some (⟨y, mo, d, hh, mm, ss⟩, off)
              else none

/-- Model of datetime.fromisoformat: a malformed string raises ValueError. -/
def fromisoformat (s : List Char) : Except PyExc (NaiveDT × Option Int) :=
  match fromisoCore s with
  | some x => .ok x
  | none => .error .valueError

/-- Python str.replace of the one-character needle Z by the string +00:00,
applied at every occurrence. -/
def replaceZ (s : List Char) : List Char :=
  match s with
  | [] => []
  | c :: t => (if c == 'Z' then ['+', '0', '0', ':', '0', '0'] else [c]) ++ replaceZ t

/-- Membership test modelling the Python expression that asks whether the
one-character string T occurs in the date string. -/
def hasT (s : List Char) : Bool := decide ('T' ∈ s)

/-- Body of the try block of the source's datetime parsing: strip, require a
T somewhere, replace Z, call fromisoformat (which may raise), and drop the
timezone from the result as dt.replace does with a none tzinfo. -/
def parseDatetimeBody (s : List Char) : Except PyExc (Option NaiveDT) :=
  let s1 := stripChars s
  if hasT s1 then
    match fromisoformat (replaceZ s1) with
    | .ok dt => .ok (some dt.1)
    | .error e => .error e
  else .ok none

/-- Model of the source's datetime parsing: the try body with the except
clause that turns a ValueError into a none result. -/
def parse_datetime (s : List Char) : Except PyExc (Option NaiveDT) :=
  match parseDatetimeBody s with
  | .ok r => .ok r
  | .error .valueError => .ok none

/-- Observed value of the datetime parsing: parse_datetime never raises
(proved below), so callers of the source's method observe only the optional
datetime. -/
def parse_datetime_val (s : List Char) : Option NaiveDT :=
  match parse_datetime s with
  | .ok r => r
  | .error _ => none

/-- Decimal digit character of a value below ten. -/
def digitChar (d : Nat) : Char := Char.ofNat (48 + d)

/-- Two-digit zero-padded decimal writing of a value below one hundred. -/
def pad2 (n : Nat) : List Char := [digitChar (n / 10 % 10), digitChar (n % 10)]

/-- Four-digit zero-padded decimal writing of a value below ten thousand. -/
def pad4 (n : Nat) : List Char :=
  [digitChar (n / 1000 % 10), digitChar (n / 100 % 10), digitChar (n / 10 % 10),
    digitChar (n % 10)]

/-- Canonical ISO-8601 datetime text with the given trailing offset text:
YYYY-MM-DDTHH:MM:SS followed by off. -/
def isoFmt (y mo d h mi s : Nat) (off : List Char) : List Char :=
  pad4 y ++ '-' :: (pad2 mo ++ '-' :: (pad2 d ++ 'T' :: (pad2 h ++ ':' ::
    (pad2 mi ++ ':' :: (pad2 s ++ off)))))

/-- Canonical well-formed ISO-8601 datetime text with an offset: either a
trailing Z or a signed numeric HH:MM offset. -/
def formatISO (y mo d h mi s : Nat) (useZ neg : Bool) (oh om : Nat) :
    List Char :=
  isoFmt y mo d h mi s
    (if useZ then ['Z']
     else (if neg then '-' else '+') :: (pad2 oh ++ ':' :: pad2 om))

/-- Meeting status values of the imported constants. -/
inductive Status where
  | cancelled
  | passed
  | tentative
  | upcoming
deriving DecidableEq, Repr

/-- Classification values the resolver can produce. -/
inductive Classification where
  | cityCouncil
  | commission
  | notClassified
deriving DecidableEq, Repr

/-- Model of the classification parsing of the source: a pure function of
the configured board identifier. -/
def parse_classification (board_id : Int) : Classification :=
  if board_id = 27 then .cityCouncil
  else if board_id = 28 then .commission
  else .notClassified

/-- Python truthiness of an optional string: a missing value and the empty
string are both falsy. -/
def pyTruthyStr (t : Option String) : Bool :=
  match t with
  | none => false
  | some s => !s.isEmpty

/-- Lowercasing as Python str.lower acts on the ASCII text of this site. -/
def pyLower (s : String) : String := String.mk (s.data.map Char.toLower)

/-- Substring containment, the Python in operator on strings. -/
def containsSub (hay needle : List Char) : Bool :=
  match hay with
  | [] => needle.isEmpty
  | c :: t => needle.isPrefixOf (c :: t) || containsSub t needle

/-- One table cell of a meeting row, reduced to the selector result the link
parsing reads from it: the href attribute of its first anchor, if any. -/
structure Cell where
  href : Option String
deriving DecidableEq, Repr

/-- One matched table row, reduced to the selector results the source reads
from it: the first text of the title cell, the content attribute of the
date span, and the cells in order. -/
structure Row where
  titleText : Option String
  dateContent : Option String
  cells : List Cell
deriving DecidableEq, Repr

/-- One emitted link: an absolute href and its label. -/
structure LinkEntry where
  href : String
  title : String
deriving DecidableEq, Repr

/-- Location configuration value passed through to every record. -/
structure LocationCfg where
  name : String
  address : String
deriving DecidableEq, Repr

/-- Site-specific configuration of a spider instance. -/
structure SpiderCfg where
  board_id : Int
  description : String
  location : LocationCfg
deriving DecidableEq, Repr

/-- Normalized meeting record. The field endTime renders the end key of the
source's Meeting item, which a Lean field cannot spell. -/
structure Meeting where
  title : String
  description : String
  classification : Classification
  start : Option NaiveDT
  endTime : Option NaiveDT
  all_day : Bool
  time_notes : String
  location : LocationCfg
  links : List LinkEntry
  source : String
  status : Status
  id : String
deriving DecidableEq, Repr

/-- The fixed label sequence of the link parsing. -/
def headers : List String := ["Agenda", "Agenda Packet", "Minutes", "Video"]

/-- Loop body of the link parsing on one label-cell pair: a truthy href
yields the resolved link under the label, anything else yields nothing. -/
def linkOfCell (uj : String → String → String) (url : String)
    (hc : String × Cell) : Option LinkEntry :=
  match hc.2.href with
  | some h => if h.isEmpty then none else some ⟨uj url h, hc.1⟩
  | none => none

/-- Whether a cell carries a truthy anchor href. -/
def hasLink (c : Cell) : Bool :=
  match c.href with
  | some h => !h.isEmpty
  | none => false

/-- Model of the link parsing of the source: zip the labels with the cells
from the third onward, and keep a link for every cell whose anchor has a
truthy href, resolved against the response URL by the external urljoin,
passed here as the function uj. -/
def parse_links (uj : String → String → String) (item : Row) (url : String) :
    List LinkEntry :=
  (headers.zip (item.cells.drop 2)).filterMap (linkOfCell uj url)

/-- Model of the title parsing of the source applied to a row: the cleaner
over the extracted title text. -/
def parse_title (item : Row) : String := clean_title item.titleText

/-- Model of the start parsing of the source: a truthy date attribute is
stripped and given to the datetime parsing, anything else yields none. -/
def parse_start (item : Row) : Option NaiveDT :=
  match item.dateContent with
  | some s => if s.isEmpty then none else parse_datetime_val (stripChars s.data)
  | none => none

/-- Model of the status resolution of the source. The generic time-based
rule of the external base class is the parameter fallback, and the current
moment of datetime.now is the parameter now. -/
def get_status (fallback : Meeting → String → Status) (now : NaiveDT)
    (meeting : Meeting) (text : String) : Status :=
  let combined := pyLower (meeting.title ++ " " ++ text)
  if containsSub combined.data "cancelled".data then .cancelled
  else if containsSub combined.data "rescheduled".data &&
      (match meeting.start with
      | some s => NaiveDT.ltB s now
      | none => false) then .passed
  else fallback meeting text

/-- Build one meeting record from one row, as the loop body of the source's
parse does: construct the item, then assign status from the partial record
(status reads only title and start, so the placeholders are inert), then
assign the id computed by the external collaborator get_id from the record
with its status set. -/
def buildMeeting (cfg : SpiderCfg) (uj : String → String → String)
    (get_id : Meeting → String) (fallback : Meeting → String → Status)
    (now : NaiveDT) (url : String) (item : Row) : Meeting :=
  let m : Meeting :=
    { title := parse_title item
      description := cfg.description
      classification := parse_classification cfg.board_id
      start := parse_start item
      endTime := none
      all_day := false
      time_notes := ""
      location := cfg.location
      links := parse_links uj item url
      source := url
      status := .tentative
      id := "" }
  let m1 := { m with status := get_status fallback now m "" }
  { m1 with id := get_id m1 }

/-- One parsed HTML page, reduced to the selector results the source's parse
reads: the response URL, the rows matching the two alternating row classes
in document order, and the first match of the two pagination selectors. -/
structure PageDoc where
  url : String
  rows : List Row
  nextPage : Option String
deriving Repr

/-- Everything one invocation of parse emits: the records in order, whether
the zero-rows warning was logged, and the optional follow-up request URL. -/
structure ParseOutput where
  records : List Meeting
  warned : Bool
  nextRequest : Option String
deriving Repr

/-- Model of the source's parse: warn on an empty row list, otherwise build
one record per row in order, and regardless of the row count resolve a
truthy next-page link into the single follow-up request. -/
def parse (cfg : SpiderCfg) (uj : String → String → String)
    (get_id : Meeting → String) (fallback : Meeting → String → Status)
    (now : NaiveDT) (page : PageDoc) : ParseOutput :=
  { records :=
      match page.rows with
      | [] => []
      | _ => page.rows.map (buildMeeting cfg uj get_id fallback now page.url)
    warned := page.rows.isEmpty
    nextRequest :=
      match page.nextPage with
      | some np => if np.isEmpty then none else some (uj page.url np)
      | none => none }

/-- Trailing-segment relation: xs is what remains of ys after removing some
leading segment. -/
def EndSeg (xs ys : List Char) : Prop := ∃ a, ys = a ++ xs

/-- Contiguous-segment relation: xs occurs in ys as one unbroken block, so
ys never inserts, duplicates, or reorders the characters of xs. -/
def SubSeg (xs ys : List Char) : Prop := ∃ a b, ys = a ++ xs ++ b

/-- Concrete resolver standing in for urljoin in witness statements. -/
def uj0 : String → String → String := fun base rel => base ++ rel

/-- Concrete id generator standing in for the external collaborator in
witness statements. -/
def gid0 : Meeting → String := fun _ => "id"

/-- Concrete generic status rule standing in for the external base class in
witness statements. -/
def fb0 : Meeting → String → Status := fun _ _ => .upcoming

/-- Concrete current moment used by witness statements. -/
def now0 : NaiveDT := ⟨2024, 12, 18, 0, 0, 0⟩

/-- Meeting with the given title and start and inert remaining fields, used
by witness statements. -/
def mkMeeting0 (title : String) (start : Option NaiveDT) : Meeting :=
  { title := title
    description := ""
    classification := .notClassified
    start := start
    endTime := none
    all_day := false
    time_notes := ""
    location := ⟨"", ""⟩
    links := []
    source := ""
    status := .tentative
    id := "" }

/-- Dropping a failing head leaves a list unchanged only when its head
really fails the predicate. -/
theorem head_false_of_dropWhile_fix {p : Char → Bool} {c : Char} {t : List Char}
    (h : List.dropWhile p (c :: t) = c :: t) : p c = false := by
  by_contra hp
  rw [Bool.not_eq_false] at hp
  rw [List.dropWhile_cons, if_pos hp] at h
  have hsub : (List.dropWhile p t).Sublist t := List.dropWhile_sublist p
  have hlen := hsub.length_le
  rw [h] at hlen
  simp only [List.length_cons] at hlen
  omega

/-- A leading portion of a dropWhile fixed point is itself a fixed point. -/
theorem dropWhile_fix_of_append {p : Char → Bool} (v b : List Char)
    (h : List.dropWhile p (v ++ b) = v ++ b) : List.dropWhile p v = v := by
  cases v with
  | nil => rfl
  | cons c cs =>
    simp only [List.cons_append] at h
    have hc : p c = false := head_false_of_dropWhile_fix h
    rw [List.dropWhile_cons, if_neg (by simp [hc])]

/-- Stripping both ends is idempotent. -/
theorem stripChars_idem (l : List Char) :
    stripChars (stripChars l) = stripChars l := by
  unfold stripChars
  have hufix : List.dropWhile isSpaceChar (List.dropWhile isSpaceChar l) =
      List.dropWhile isSpaceChar l := List.dropWhile_idempotent _ _
  have hsfx : List.dropWhile isSpaceChar (List.dropWhile isSpaceChar l).reverse <:+
      (List.dropWhile isSpaceChar l).reverse := List.dropWhile_suffix isSpaceChar
  obtain ⟨a, ha⟩ := hsfx
  have hsplit : List.dropWhile isSpaceChar l =
      (List.dropWhile isSpaceChar
        (List.dropWhile isSpaceChar l).reverse).reverse ++ a.reverse := by
    conv_lhs => rw [← List.reverse_reverse (List.dropWhile isSpaceChar l), ← ha]
    rw [List.reverse_append]
  have hmfix :
      List.dropWhile isSpaceChar
        (List.dropWhile isSpaceChar
          (List.dropWhile isSpaceChar l).reverse).reverse =
      (List.dropWhile isSpaceChar
        (List.dropWhile isSpaceChar l).reverse).reverse := by
    apply dropWhile_fix_of_append _ a.reverse
    rw [← hsplit]
    exact hufix
  rw [hmfix, List.reverse_reverse, List.dropWhile_idempotent]

/-- Every list ends with itself. -/
theorem endSeg_refl (xs : List Char) : EndSeg xs xs := ⟨[], rfl⟩

/-- Trailing segments compose. -/
theorem endSeg_trans {xs ys zs : List Char} (h1 : EndSeg xs ys)
    (h2 : EndSeg ys zs) : EndSeg xs zs := by
  obtain ⟨a, ha⟩ := h1
  obtain ⟨b, hb⟩ := h2
  exact ⟨b ++ a, by rw [hb, ha, List.append_assoc]⟩

/-- A trailing segment survives an extra leading element. -/
theorem endSeg_cons {xs ys : List Char} (c : Char) (h : EndSeg xs ys) :
    EndSeg xs (c :: ys) := by
  obtain ⟨a, ha⟩ := h
  exact ⟨c :: a, by rw [ha]; rfl⟩

/-- A trailing segment is a contiguous segment. -/
theorem endSeg_subSeg {xs ys : List Char} (h : EndSeg xs ys) : SubSeg xs ys := by
  obtain ⟨a, ha⟩ := h
  exact ⟨a, [], by rw [ha, List.append_nil]⟩

/-- Contiguous segments compose. -/
theorem subSeg_trans {xs ys zs : List Char} (h1 : SubSeg xs ys)
    (h2 : SubSeg ys zs) : SubSeg xs zs := by
  obtain ⟨a, b, hab⟩ := h1
  obtain ⟨c, d, hcd⟩ := h2
  refine ⟨c ++ a, b ++ d, ?_⟩
  rw [hcd, hab]
  simp [List.append_assoc]

/-- A successful star match hands its continuation a trailing segment of the
input. -/
theorem runStar_endSeg {p : Char → Bool} :
    ∀ {s : List Char} {k : List Char → Option (List Char)} {r : List Char},
      runStar p s k = some r → ∃ s1, EndSeg s1 s ∧ k s1 = some r := by
  intro s
  induction s with
  | nil => exact fun h => ⟨[], endSeg_refl [], h⟩
  | cons c t ih =>
    intro k r h
    rw [runStar] at h
    by_cases hp : p c
    · rw [if_pos hp] at h
      match hx : runStar p t k with
      | some v =>
        rw [hx] at h
        simp only [Option.orElse] at h
        obtain ⟨s1, he, hk⟩ := ih (hx.trans h)
        exact ⟨s1, endSeg_cons c he, hk⟩
      | none =>
        rw [hx] at h
        simp only [Option.orElse] at h
        exact ⟨c :: t, endSeg_refl _, h⟩
    · rw [if_neg hp] at h
      exact ⟨c :: t, endSeg_refl _, h⟩

/-- A successful pattern match hands its continuation a trailing segment of
the input. -/
theorem runPat_endSeg :
    ∀ (pat : Pat) {s : List Char} {k : List Char → Option (List Char)}
      {r : List Char},
      runPat pat s k = some r → ∃ s1, EndSeg s1 s ∧ k s1 = some r := by
  intro pat
  induction pat with
  | eps => exact fun h => ⟨_, endSeg_refl _, h⟩
  | cls p =>
    intro s k r h
    match s with
    | [] => exact absurd h (by simp [runPat])
    | c :: t =>
      rw [runPat] at h
      by_cases hp : p c
      · rw [if_pos hp] at h
        exact ⟨t, ⟨[c], rfl⟩, h⟩
      · rw [if_neg hp] at h
        exact absurd h (by simp)
  | seq a b iha ihb =>
    intro s k r h
    rw [runPat] at h
    obtain ⟨s1, e1, h1⟩ := iha h
    obtain ⟨s2, e2, h2⟩ := ihb h1
    exact ⟨s2, endSeg_trans e2 e1, h2⟩
  | alt a b iha ihb =>
    intro s k r h
    rw [runPat] at h
    match hx : runPat a s k with
    | some v =>
      rw [hx] at h
      simp only [Option.orElse] at h
      exact iha (hx.trans h)
    | none =>
      rw [hx] at h
      simp only [Option.orElse] at h
      exact ihb h
  | star p => exact fun h => runStar_endSeg h

/-- One anchored removal returns a trailing segment of its input. -/
theorem subAnchored_endSeg (pat : Pat) (s : List Char) :
    EndSeg (subAnchored pat s) s := by
  unfold subAnchored
  match h : runPat pat s some with
  | none => exact endSeg_refl s
  | some r =>
    obtain ⟨s1, he, hk⟩ := runPat_endSeg pat h
    rw [Option.some_inj] at hk
    rwa [← hk]

/-- A fold of anchored removals returns a trailing segment of its input. -/
theorem foldSub_endSeg :
    ∀ (ps : List Pat) (s : List Char),
      EndSeg (ps.foldl (fun acc p => subAnchored p acc) s) s := by
  intro ps
  induction ps with
  | nil => exact fun s => endSeg_refl s
  | cons p rest ih =>
    intro s
    exact endSeg_trans (ih (subAnchored p s)) (subAnchored_endSeg p s)

/-- Stripping returns a contiguous segment of its input. -/
theorem stripChars_subSeg (l : List Char) : SubSeg (stripChars l) l := by
  have hsfx1 : List.dropWhile isSpaceChar l <:+ l :=
    List.dropWhile_suffix isSpaceChar
  obtain ⟨a, ha⟩ := hsfx1
  have hsfx2 : List.dropWhile isSpaceChar (List.dropWhile isSpaceChar l).reverse <:+
      (List.dropWhile isSpaceChar l).reverse := List.dropWhile_suffix isSpaceChar
  obtain ⟨b, hb⟩ := hsfx2
  refine ⟨a, b.reverse, ?_⟩
  have hu : List.dropWhile isSpaceChar l = stripChars l ++ b.reverse := by
    have hrev := congrArg List.reverse hb
    rw [List.reverse_append, List.reverse_reverse] at hrev
    exact hrev.symm
  conv_lhs => rw [← ha]
  rw [hu, List.append_assoc]

/-- The whole cleaning body returns a contiguous segment of its input. -/
theorem cleanChars_subSeg (l : List Char) : SubSeg (cleanChars l) l := by
  unfold cleanChars
  refine subSeg_trans (stripChars_subSeg _) ?_
  refine subSeg_trans (endSeg_subSeg (foldSub_endSeg _ _)) ?_
  exact stripChars_subSeg l

/-- Claim C10: for every non-null input the cleaned title is a contiguous
substring of the input; the cleaner removes a leading segment a pattern at a
time and trims whitespace, never inserting, duplicating, or reordering
characters. -/
theorem claim_c10_clean_title_substring (s : String) :
    SubSeg (clean_title (some s)).data s.data :=
  cleanChars_subSeg s.data

/-- Claim C6: the cleaner maps a missing title to the empty string, produces
the expected cleaned titles on the two concrete inputs of the specification,
and its output carries no surrounding whitespace (stripping it again is a
no-op). -/
theorem claim_c6_clean_title_examples :
    clean_title none = "" ∧
    clean_title (some "Wednesday, February 5- Budget Workshop") =
      "Budget Workshop" ∧
    clean_title (some "October 19-20, 2018 Council Retreat") =
      "Council Retreat" ∧
    ∀ t : Option String, stripChars (clean_title t).data = (clean_title t).data := by
  refine ⟨by decide, by decide, by decide, ?_⟩
  intro t
  show stripChars (cleanChars (t.getD "").data) = cleanChars (t.getD "").data
  unfold cleanChars
  exact stripChars_idem _

/-- When no pattern matches, the fold of anchored removals changes
nothing. -/
theorem foldSub_id :
    ∀ (ps : List Pat) (s : List Char),
      (∀ p ∈ ps, runPat p s some = none) →
      ps.foldl (fun acc p => subAnchored p acc) s = s := by
  intro ps
  induction ps with
  | nil => exact fun s _ => rfl
  | cons p rest ih =>
    intro s h
    have hp : runPat p s some = none := h p (List.mem_cons_self p rest)
    have hsub : subAnchored p s = s := by
      unfold subAnchored
      rw [hp]
    rw [List.foldl_cons, hsub]
    exact ih s (fun q hq => h q (List.mem_cons_of_mem p hq))

/-- Counterexample to claim C3: the cleaner is not idempotent. On the input
below the first pass only fires the month-plus-year pattern, which is last
in the list, and the residue it exposes begins with a weekday prefix that
the first pattern then removes on a second pass. -/
theorem claim_c3_counterexample :
    clean_title (some (clean_title (some "May 2020 Monday, May 5- X"))) ≠
      clean_title (some "May 2020 Monday, May 5- X") := by
  decide

/-- Claim C3 as amended: re-running the cleaner on its own output is a
no-op provided no date pattern matches that output; without that proviso a
second run can strip a further prefix, because a pattern late in the list
can expose a prefix that an earlier pattern matches. -/
theorem claim_c3_cleaner_conditional_idem (t : Option String)
    (h : ∀ p ∈ datePatterns, runPat p (clean_title t).data some = none) :
    clean_title (some (clean_title t)) = clean_title t := by
  have h' : ∀ p ∈ datePatterns,
      runPat p (cleanChars (t.getD "").data) some = none := h
  have hbody : cleanChars (cleanChars (t.getD "").data) =
      cleanChars (t.getD "").data := by
    have hstrip : stripChars (cleanChars (t.getD "").data) =
        cleanChars (t.getD "").data := stripChars_idem _
    calc cleanChars (cleanChars (t.getD "").data)
        = stripChars (applyPatterns (stripChars (cleanChars (t.getD "").data))) :=
          rfl
      _ = stripChars (applyPatterns (cleanChars (t.getD "").data)) := by
          rw [hstrip]
      _ = stripChars (cleanChars (t.getD "").data) := by
          rw [applyPatterns, foldSub_id datePatterns _ h']
      _ = cleanChars (t.getD "").data := hstrip
  show String.mk (cleanChars (cleanChars (t.getD "").data)) = _
  rw [hbody]
  rfl

/-- Witness for the amended claim C3 at a cleaned output no pattern
matches. -/
theorem claim_c3_cleaner_conditional_idem_witness :
    clean_title (some (clean_title (some "Budget Workshop"))) =
      clean_title (some "Budget Workshop") :=
  claim_c3_cleaner_conditional_idem (some "Budget Workshop") (by decide)

/-- Unfolding a successful loop body of the link parsing: the cell carried a
truthy href, the emitted title is the paired label, and the emitted href is
the resolved raw href. -/
theorem linkOfCell_eq_some {uj : String → String → String} {url h : String}
    {c : Cell} {l : LinkEntry} (hl : linkOfCell uj url (h, c) = some l) :
    ∃ hv, c.href = some hv ∧ hv.isEmpty = false ∧ l = ⟨uj url hv, h⟩ := by
  unfold linkOfCell at hl
  match hx : c.href with
  | none => rw [hx] at hl; simp at hl
  | some hv =>
    rw [hx] at hl
    by_cases he : hv.isEmpty
    · simp [he] at hl
    · simp only [he, if_false, Bool.false_eq_true, Option.some_inj] at hl
      exact ⟨hv, rfl, Bool.eq_false_iff.mpr he, hl.symm⟩

/-- The loop body fails exactly on cells without a truthy href. -/
theorem linkOfCell_eq_none {uj : String → String → String} {url h : String}
    {c : Cell} (hc : hasLink c = false) : linkOfCell uj url (h, c) = none := by
  unfold hasLink at hc
  match hx : c.href with
  | none => simp [linkOfCell, hx]
  | some hv =>
    rw [hx] at hc
    simp only [Bool.not_eq_false'] at hc
    simp [linkOfCell, hx, hc]

/-- The loop body succeeds exactly on cells with a truthy href. -/
theorem linkOfCell_isSome (uj : String → String → String) (url h : String)
    {c : Cell} (hc : hasLink c = true) :
    ∃ l, linkOfCell uj url (h, c) = some l := by
  unfold hasLink at hc
  match hx : c.href with
  | none => rw [hx] at hc; exact absurd hc (by simp)
  | some hv =>
    rw [hx] at hc
    simp only [Bool.not_eq_true'] at hc
    exact ⟨⟨uj url hv, h⟩, by simp [linkOfCell, hx, hc]⟩

/-- The emitted labels of the zipped fold are an in-order selection of the
label list. -/
theorem zipLinks_title_sublist (uj : String → String → String) (url : String) :
    ∀ (hs : List String) (xs : List Cell),
      (((hs.zip xs).filterMap (linkOfCell uj url)).map LinkEntry.title).Sublist
        hs := by
  intro hs
  induction hs with
  | nil => intro xs; simp
  | cons h hs ih =>
    intro xs
    cases xs with
    | nil => simp
    | cons x xs =>
      rw [List.zip_cons_cons, List.filterMap_cons]
      match hx : linkOfCell uj url (h, x) with
      | none => exact (ih xs).cons h
      | some l =>
        obtain ⟨hv, _, _, hl⟩ := linkOfCell_eq_some hx
        rw [List.map_cons]
        have ht : l.title = h := by rw [hl]
        rw [ht]
        exact (ih xs).cons₂ h

/-- The number of emitted links equals the number of truthy-href cells among
the cells paired with a label. -/
theorem zipLinks_length (uj : String → String → String) (url : String) :
    ∀ (hs : List String) (xs : List Cell),
      ((hs.zip xs).filterMap (linkOfCell uj url)).length =
        (xs.take hs.length).countP hasLink := by
  intro hs
  induction hs with
  | nil => intro xs; simp
  | cons h hs ih =>
    intro xs
    cases xs with
    | nil => simp
    | cons x xs =>
      rw [List.zip_cons_cons, List.filterMap_cons, List.length_cons,
        List.take_succ_cons, List.countP_cons]
      match hcl : hasLink x with
      | false =>
        rw [linkOfCell_eq_none hcl]
        simp [ih xs, hcl]
      | true =>
        obtain ⟨l, hl⟩ := linkOfCell_isSome uj url h hcl
        rw [hl]
        simp [ih xs, hcl]

/-- Every emitted link originates in a labelled cell with a truthy href,
resolved against the page URL. -/
theorem zipLinks_mem (uj : String → String → String) (url : String) :
    ∀ (hs : List String) (xs : List Cell)
      (l : LinkEntry), l ∈ (hs.zip xs).filterMap (linkOfCell uj url) →
      ∃ c ∈ xs.take hs.length, ∃ hv, c.href = some hv ∧ hv.isEmpty = false ∧
        l.href = uj url hv ∧ l.title ∈ hs := by
  intro hs
  induction hs with
  | nil => intro xs l hl; simp at hl
  | cons h hs ih =>
    intro xs l hl
    cases xs with
    | nil => simp at hl
    | cons x xs =>
      rw [List.zip_cons_cons, List.filterMap_cons] at hl
      match hx : linkOfCell uj url (h, x) with
      | none =>
        rw [hx] at hl
        obtain ⟨c, hc, hv, h1, h2, h3, h4⟩ := ih xs l hl
        exact ⟨c, List.mem_cons_of_mem x (by simpa using hc), hv, h1, h2, h3,
          List.mem_cons_of_mem h h4⟩
      | some v =>
        rw [hx] at hl
        rcases List.mem_cons.mp hl with hvl | hl'
        · obtain ⟨hv, h1, h2, h3⟩ := linkOfCell_eq_some hx
          refine ⟨x, List.mem_cons_self x _, hv, h1, h2, ?_, ?_⟩
          · rw [hvl, h3]
          · rw [hvl, h3]
            exact List.mem_cons_self h hs
        · obtain ⟨c, hc, hv, h1, h2, h3, h4⟩ := ih xs l hl'
          exact ⟨c, List.mem_cons_of_mem x (by simpa using hc), hv, h1, h2, h3,
            List.mem_cons_of_mem h h4⟩

/-- Positional content of the zipped fold: the cell at data position i,
when it carries a truthy href, produces the output entry at position equal
to the number of truthy cells before it, labelled with exactly the label at
position i and carrying exactly that cell's resolved href. -/
theorem zipLinks_pos (uj : String → String → String) (url : String) :
    ∀ (i : Nat) (hs : List String) (xs : List Cell) (c : Cell) (hv : String),
      xs[i]? = some c → i < hs.length → c.href = some hv →
      hv.isEmpty = false →
      ((hs.zip xs).filterMap (linkOfCell uj url))[(xs.take i).countP hasLink]? =
        (hs[i]?).map (fun t => (⟨uj url hv, t⟩ : LinkEntry)) := by
  intro i
  induction i with
  | zero =>
    intro hs xs c hv hc hi hhv hne
    match hs, xs with
    | [], _ => simp at hi
    | h :: hs', [] => simp at hc
    | h :: hs', x :: xs' =>
      rw [List.getElem?_cons_zero, Option.some_inj] at hc
      subst hc
      rw [List.zip_cons_cons, List.filterMap_cons]
      have hf : linkOfCell uj url (h, x) = some ⟨uj url hv, h⟩ := by
        simp [linkOfCell, hhv, hne]
      rw [hf]
      simp
  | succ i ih =>
    intro hs xs c hv hc hi hhv hne
    match hs, xs with
    | [], _ => simp at hi
    | h :: hs', [] => simp at hc
    | h :: hs', x :: xs' =>
      rw [List.getElem?_cons_succ] at hc
      rw [List.length_cons, Nat.succ_lt_succ_iff] at hi
      rw [List.zip_cons_cons, List.filterMap_cons, List.take_succ_cons,
        List.countP_cons, List.getElem?_cons_succ]
      have ih' := ih hs' xs' c hv hc hi hhv hne
      by_cases hx : hasLink x = true
      · obtain ⟨l, hl⟩ := linkOfCell_isSome uj url h hx
        rw [hl]
        simp only [hx, if_true]
        rw [List.getElem?_cons_succ]
        exact ih'
      · have hxf : hasLink x = false := by simpa using hx
        rw [linkOfCell_eq_none hxf]
        simp only [hxf, Bool.false_eq_true, if_false, Nat.add_zero]
        exact ih'

/-- Claim C7: the link parsing skips the first two cells, pairs the rest
positionally with the four fixed labels (the truthy-anchor cell at data
position i yields the output entry at the position counting the truthy
cells before it, labelled with exactly the label at position i and carrying
exactly that cell's href resolved against the page URL), emits at most four
links (exactly one per truthy-anchor cell among the labelled cells, skipped
cells contributing nothing), keeps the labels in order, and never emits a
null href. -/
theorem claim_c7_parse_links (uj : String → String → String) (item : Row)
    (url : String) :
    ((parse_links uj item url).map LinkEntry.title).Sublist headers ∧
    (parse_links uj item url).length ≤ 4 ∧
    (parse_links uj item url).length =
      ((item.cells.drop 2).take 4).countP hasLink ∧
    (∀ l ∈ parse_links uj item url, ∃ c ∈ (item.cells.drop 2).take 4,
      ∃ hv, c.href = some hv ∧ hv.isEmpty = false ∧ l.href = uj url hv ∧
        l.title ∈ headers) ∧
    ∀ i : Nat, i < 4 → ∀ c : Cell, (item.cells.drop 2)[i]? = some c →
      ∀ hv : String, c.href = some hv → hv.isEmpty = false →
      (parse_links uj item url)[((item.cells.drop 2).take i).countP hasLink]? =
        (headers[i]?).map (fun t => (⟨uj url hv, t⟩ : LinkEntry)) := by
  refine ⟨?_, ?_, ?_, ?_, ?_⟩
  · exact zipLinks_title_sublist uj url headers (item.cells.drop 2)
  · have h1 := (zipLinks_title_sublist uj url headers (item.cells.drop 2)).length_le
    rw [List.length_map] at h1
    exact h1
  · exact zipLinks_length uj url headers (item.cells.drop 2)
  · exact zipLinks_mem uj url headers (item.cells.drop 2)
  · intro i hi c hc hv hhv hne
    exact zipLinks_pos uj url i headers (item.cells.drop 2) c hv hc
      (by simpa [headers] using hi) hhv hne

/-- Witness for claim C7. On a row whose third cell has no anchor and whose
fourth cell has one, the positional conjunct places the sole link under the
second label, Agenda Packet, showing the labels are not compacted; on a row
with three anchor-bearing data cells, an emitted link is traced back to its
cell. -/
theorem claim_c7_parse_links_witness :
    (parse_links uj0 (Row.mk none none [⟨none⟩, ⟨none⟩, ⟨none⟩,
        ⟨some "p.pdf"⟩]) "http://x/")[(((Row.mk none none [⟨none⟩, ⟨none⟩,
        ⟨none⟩, ⟨some "p.pdf"⟩]).cells.drop 2).take 1).countP hasLink]? =
      (headers[1]?).map (fun t => (⟨uj0 "http://x/" "p.pdf", t⟩ : LinkEntry)) ∧
    (parse_links uj0 (Row.mk none none [⟨none⟩, ⟨none⟩, ⟨none⟩,
        ⟨some "p.pdf"⟩]) "http://x/")[0]? =
      some ⟨"http://x/p.pdf", "Agenda Packet"⟩ ∧
    ∃ c ∈ ((Row.mk none none [⟨none⟩, ⟨none⟩, ⟨some "a.pdf"⟩, ⟨some "p.pdf"⟩,
        ⟨some "m.pdf"⟩]).cells.drop 2).take 4,
      ∃ hv, c.href = some hv ∧ hv.isEmpty = false ∧
        (LinkEntry.mk "http://x/a.pdf" "Agenda").href = uj0 "http://x/" hv ∧
        (LinkEntry.mk "http://x/a.pdf" "Agenda").title ∈ headers := by
  refine ⟨?_, by decide, ?_⟩
  · exact (claim_c7_parse_links uj0
      (Row.mk none none [⟨none⟩, ⟨none⟩, ⟨none⟩, ⟨some "p.pdf"⟩])
      "http://x/").2.2.2.2 1 (by decide) ⟨some "p.pdf"⟩ (by decide) "p.pdf"
      rfl (by decide)
  · exact (claim_c7_parse_links uj0
      (Row.mk none none [⟨none⟩, ⟨none⟩, ⟨some "a.pdf"⟩, ⟨some "p.pdf"⟩,
        ⟨some "m.pdf"⟩]) "http://x/").2.2.2.1
      (LinkEntry.mk "http://x/a.pdf" "Agenda") (by decide)

/-- Claim C9: the classification resolver returns CITY_COUNCIL exactly for
board identifier 27, COMMISSION exactly for 28, NOT_CLASSIFIED for every
other identifier, and its result is always one of the three enumerated
values. -/
theorem claim_c9_parse_classification :
    parse_classification 27 = .cityCouncil ∧
    parse_classification 28 = .commission ∧
    (∀ b : Int, b ≠ 27 → b ≠ 28 → parse_classification b = .notClassified) ∧
    (∀ b : Int, parse_classification b = .cityCouncil ∨
      parse_classification b = .commission ∨
      parse_classification b = .notClassified) := by
  refine ⟨rfl, rfl, ?_, ?_⟩
  · intro b h27 h28
    simp [parse_classification, h27, h28]
  · intro b
    unfold parse_classification
    split
    · exact Or.inl rfl
    · split
      · exact Or.inr (Or.inl rfl)
      · exact Or.inr (Or.inr rfl)

/-- Witness for claim C9 at the concrete identifier 99. -/
theorem claim_c9_parse_classification_witness :
    parse_classification 99 = .notClassified :=
  claim_c9_parse_classification.2.2.1 99 (by decide) (by decide)

/-- Claim C4: the datetime parser is total, any failure of the try body
yields a none result, and the concrete input not-a-date parses to none with
no exception. -/
theorem claim_c4_parse_datetime_no_exception :
    (∀ s : List Char, ∃ r, parse_datetime s = Except.ok r) ∧
    (∀ s : List Char, parseDatetimeBody s = Except.error .valueError →
      parse_datetime s = Except.ok none) ∧
    parse_datetime "not-a-date".data = Except.ok none := by
  refine ⟨?_, ?_, by rfl⟩
  · intro s
    unfold parse_datetime
    match h : parseDatetimeBody s with
    | .ok r => exact ⟨r, rfl⟩
    | .error .valueError => exact ⟨none, rfl⟩
  · intro s h
    unfold parse_datetime
    rw [h]

/-- Witness for claim C4 at the concrete input naT, which reaches the
fromisoformat call (it contains a T) and whose try body therefore raises
ValueError, caught into a none result. -/
theorem claim_c4_parse_datetime_no_exception_witness :
    parse_datetime "naT".data = Except.ok none :=
  claim_c4_parse_datetime_no_exception.2.1 "naT".data (by rfl)

/-- Claim C2: the status resolver checks cancellation text first, returning
CANCELLED whatever the start time; otherwise rescheduling text with a start
strictly before now gives PASSED; otherwise it defers to the generic rule.
Cancellation text wins over rescheduling text because its test comes first
and no other condition guards it. -/
theorem claim_c2_get_status_order (fb : Meeting → String → Status)
    (now : NaiveDT) (m : Meeting) (text : String) :
    (containsSub (pyLower (m.title ++ " " ++ text)).data "cancelled".data = true →
      get_status fb now m text = .cancelled) ∧
    (containsSub (pyLower (m.title ++ " " ++ text)).data "cancelled".data = false →
      containsSub (pyLower (m.title ++ " " ++ text)).data "rescheduled".data = true →
      ∀ s, m.start = some s → NaiveDT.ltB s now = true →
      get_status fb now m text = .passed) ∧
    (containsSub (pyLower (m.title ++ " " ++ text)).data "cancelled".data = false →
      (containsSub (pyLower (m.title ++ " " ++ text)).data "rescheduled".data &&
        (match m.start with
        | some s => NaiveDT.ltB s now
        | none => false)) = false →
      get_status fb now m text = fb m text) := by
  refine ⟨?_, ?_, ?_⟩
  · intro hc
    simp [get_status, hc]
  · intro hc hr s hs hlt
    simp [get_status, hc, hr, hs, hlt]
  · intro hc hcond
    simp [get_status, hc, hcond]

/-- Witness for claim C2: a cancelled title wins, a rescheduled title with a
past start gives PASSED, and a plain title defers to the generic rule. -/
theorem claim_c2_get_status_order_witness :
    get_status fb0 now0 (mkMeeting0 "Meeting Cancelled" none) "" = .cancelled ∧
    get_status fb0 now0
      (mkMeeting0 "Rescheduled Meeting" (some ⟨2024, 12, 17, 0, 0, 0⟩)) "" = .passed ∧
    get_status fb0 now0 (mkMeeting0 "Regular Meeting" none) "" =
      fb0 (mkMeeting0 "Regular Meeting" none) "" := by
  refine ⟨?_, ?_, ?_⟩
  · exact (claim_c2_get_status_order fb0 now0
      (mkMeeting0 "Meeting Cancelled" none) "").1 (by decide)
  · exact (claim_c2_get_status_order fb0 now0
      (mkMeeting0 "Rescheduled Meeting" (some ⟨2024, 12, 17, 0, 0, 0⟩)) "").2.1
      (by decide) (by decide) ⟨2024, 12, 17, 0, 0, 0⟩ rfl (by decide)
  · exact (claim_c2_get_status_order fb0 now0
      (mkMeeting0 "Regular Meeting" none) "").2.2 (by decide) (by decide)

/-- Claim C1: parse emits exactly one record per matched row, the records
appear in source row order, and every row yields a record (no row aborts
the page). -/
theorem claim_c1_parse_one_record_per_row (cfg : SpiderCfg)
    (uj : String → String → String) (gid : Meeting → String)
    (fb : Meeting → String → Status) (now : NaiveDT) (page : PageDoc) :
    (parse cfg uj gid fb now page).records.length = page.rows.length ∧
    ∀ i : Nat, (parse cfg uj gid fb now page).records[i]? =
      (page.rows[i]?).map (buildMeeting cfg uj gid fb now page.url) := by
  unfold parse
  match h : page.rows with
  | [] => simp
  | r :: rs =>
    constructor
    · simp
    · intro i
      change (List.map (buildMeeting cfg uj gid fb now page.url) (r :: rs))[i]? = _
      rw [List.getElem?_map]

/-- Claim C8: a page with zero matching rows logs the warning and yields no
records while the pagination step still runs and is unaffected by the row
count, and every follow-up request is the single discovered next-page link
resolved against the current page URL. -/
theorem claim_c8_parse_warning_pagination (cfg : SpiderCfg)
    (uj : String → String → String) (gid : Meeting → String)
    (fb : Meeting → String → Status) (now : NaiveDT) (page : PageDoc) :
    (page.rows = [] → (parse cfg uj gid fb now page).warned = true ∧
      (parse cfg uj gid fb now page).records = []) ∧
    (∀ r, (parse cfg uj gid fb now page).nextRequest = some r →
      ∃ np, page.nextPage = some np ∧ r = uj page.url np) ∧
    (parse cfg uj gid fb now page).nextRequest =
      (parse cfg uj gid fb now { page with rows := [] }).nextRequest := by
  refine ⟨?_, ?_, ?_⟩
  · intro h
    simp [parse, h]
  · intro r hr
    unfold parse at hr
    match h : page.nextPage with
    | none => simp [h] at hr
    | some np =>
      simp only [h] at hr
      by_cases he : np.isEmpty
      · simp [he] at hr
      · simp [he] at hr
        exact ⟨np, rfl, hr.symm⟩
  · simp [parse]

/-- Witness for claim C8 at a concrete zero-row page with a next link. -/
theorem claim_c8_parse_warning_pagination_witness :
    (parse ⟨27, "", ⟨"", ""⟩⟩ uj0 gid0 fb0 now0
      ⟨"http://x/", [], some "/p2"⟩).warned = true ∧
    (parse ⟨27, "", ⟨"", ""⟩⟩ uj0 gid0 fb0 now0
      ⟨"http://x/", [], some "/p2"⟩).records = [] ∧
    ∃ np, (some "/p2" : Option String) = some np ∧
      "http://x//p2" = uj0 "http://x/" np := by
  refine ⟨?_, ?_, ?_⟩
  · exact ((claim_c8_parse_warning_pagination ⟨27, "", ⟨"", ""⟩⟩ uj0 gid0 fb0 now0
      ⟨"http://x/", [], some "/p2"⟩).1 rfl).1
  · exact ((claim_c8_parse_warning_pagination ⟨27, "", ⟨"", ""⟩⟩ uj0 gid0 fb0 now0
      ⟨"http://x/", [], some "/p2"⟩).1 rfl).2
  · exact (claim_c8_parse_warning_pagination ⟨27, "", ⟨"", ""⟩⟩ uj0 gid0 fb0 now0
      ⟨"http://x/", [], some "/p2"⟩).2.1 "http://x//p2" (by decide)

/-- Value of a written digit. -/
theorem digitVal_digitChar (d : Nat) (hd : d ≤ 9) :
    digitVal (digitChar d) = some d := by
  interval_cases d <;> decide

/-- Written digits are not whitespace. -/
theorem digitChar_not_space (d : Nat) (hd : d ≤ 9) :
    isSpaceChar (digitChar d) = false := by
  interval_cases d <;> decide

/-- Written digits are not the letter Z. -/
theorem digitChar_ne_Z (d : Nat) (hd : d ≤ 9) :
    (digitChar d == 'Z') = false := by
  interval_cases d <;> decide

/-- Parsing a two-digit writing recovers the value. -/
theorem parse2_pad2 (n : Nat) (rest : List Char) :
    parse2 (pad2 n ++ rest) = some (n % 100, rest) := by
  have h1 := digitVal_digitChar (n / 10 % 10) (by omega)
  have h2 := digitVal_digitChar (n % 10) (by omega)
  show parse2 (digitChar (n / 10 % 10) :: digitChar (n % 10) :: rest) = _
  simp [parse2, h1, h2, Prod.ext_iff]
  omega

/-- Parsing a two-digit writing with nothing after it. -/
theorem parse2_pad2_nil (n : Nat) : parse2 (pad2 n) = some (n % 100, []) := by
  have h := parse2_pad2 n []
  rwa [List.append_nil] at h

/-- Parsing a four-digit writing recovers the value. -/
theorem parse4_pad4 (n : Nat) (rest : List Char) :
    parse4 (pad4 n ++ rest) = some (n % 10000, rest) := by
  have h1 := digitVal_digitChar (n / 1000 % 10) (by omega)
  have h2 := digitVal_digitChar (n / 100 % 10) (by omega)
  have h3 := digitVal_digitChar (n / 10 % 10) (by omega)
  have h4 := digitVal_digitChar (n % 10) (by omega)
  show parse4 (digitChar (n / 1000 % 10) :: digitChar (n / 100 % 10) ::
    digitChar (n / 10 % 10) :: digitChar (n % 10) :: rest) = _
  simp [parse4, h1, h2, h3, h4, Prod.ext_iff]
  omega

/-- Consuming an expected dash. -/
theorem expectChar_dash (t : List Char) : expectChar '-' ('-' :: t) = some t := by
  simp [expectChar]

/-- Consuming an expected colon. -/
theorem expectChar_colon (t : List Char) : expectChar ':' (':' :: t) = some t := by
  simp [expectChar]

/-- Every month is at most 31 days long. -/
theorem daysInMonth_le_31 (y m : Nat) : daysInMonth y m ≤ 31 := by
  unfold daysInMonth
  split_ifs <;> omega

/-- Two-digit writings contain no whitespace. -/
theorem pad2_not_space (n : Nat) : ∀ c ∈ pad2 n, isSpaceChar c = false := by
  intro c hc
  simp only [pad2, List.mem_cons, List.not_mem_nil, or_false] at hc
  rcases hc with rfl | rfl
  · exact digitChar_not_space _ (by omega)
  · exact digitChar_not_space _ (by omega)

/-- Four-digit writings contain no whitespace. -/
theorem pad4_not_space (n : Nat) : ∀ c ∈ pad4 n, isSpaceChar c = false := by
  intro c hc
  simp only [pad4, List.mem_cons, List.not_mem_nil, or_false] at hc
  rcases hc with rfl | rfl | rfl | rfl <;> exact digitChar_not_space _ (by omega)

/-- Two-digit writings contain no Z. -/
theorem pad2_ne_Z (n : Nat) : ∀ c ∈ pad2 n, (c == 'Z') = false := by
  intro c hc
  simp only [pad2, List.mem_cons, List.not_mem_nil, or_false] at hc
  rcases hc with rfl | rfl <;> exact digitChar_ne_Z _ (by omega)

/-- Four-digit writings contain no Z. -/
theorem pad4_ne_Z (n : Nat) : ∀ c ∈ pad4 n, (c == 'Z') = false := by
  intro c hc
  simp only [pad4, List.mem_cons, List.not_mem_nil, or_false] at hc
  rcases hc with rfl | rfl | rfl | rfl <;> exact digitChar_ne_Z _ (by omega)

/-- Character inventory of a formatted datetime: nothing is whitespace, and
when the offset is numeric nothing is a Z. -/
theorem formatISO_chars (y mo d h mi s : Nat) (useZ neg : Bool) (oh om : Nat) :
    ∀ c ∈ formatISO y mo d h mi s useZ neg oh om,
      isSpaceChar c = false ∧ (useZ = false → (c == 'Z') = false) := by
  intro c hc
  unfold formatISO isoFmt at hc
  by_cases huz : useZ = true
  · rw [if_pos huz] at hc
    simp only [List.mem_append, List.mem_cons, List.not_mem_nil, or_false] at hc
    rcases hc with hp | rfl | hp | rfl | hp | rfl | hp | rfl | hp | rfl | hp | rfl <;>
      first
        | exact ⟨pad4_not_space _ _ hp, fun _ => pad4_ne_Z _ _ hp⟩
        | exact ⟨pad2_not_space _ _ hp, fun _ => pad2_ne_Z _ _ hp⟩
        | exact ⟨by decide, fun hfz => absurd huz (by simp [hfz])⟩
  · rw [if_neg huz] at hc
    simp only [List.mem_append, List.mem_cons, List.not_mem_nil, or_false] at hc
    rcases hc with
      hp | rfl | hp | rfl | hp | rfl | hp | rfl | hp | rfl | hp | rfl | hp | rfl | hp <;>
      first
        | exact ⟨pad4_not_space _ _ hp, fun _ => pad4_ne_Z _ _ hp⟩
        | exact ⟨pad2_not_space _ _ hp, fun _ => pad2_ne_Z _ _ hp⟩
        | exact ⟨by decide, fun _ => by decide⟩
        | (cases neg <;> exact ⟨by decide, fun _ => by decide⟩)

/-- A dropWhile over a list none of whose elements satisfies the predicate
is the identity. -/
theorem dropWhile_of_all_false {p : Char → Bool} {l : List Char}
    (h : ∀ c ∈ l, p c = false) : List.dropWhile p l = l := by
  cases l with
  | nil => rfl
  | cons c t =>
    rw [List.dropWhile_cons, if_neg (by simp [h c (List.mem_cons_self c t)])]

/-- Stripping a list with no whitespace is the identity. -/
theorem stripChars_of_no_space {l : List Char}
    (h : ∀ c ∈ l, isSpaceChar c = false) : stripChars l = l := by
  unfold stripChars
  rw [dropWhile_of_all_false h,
    dropWhile_of_all_false (fun c hc => h c (List.mem_reverse.mp hc))]
  exact List.reverse_reverse l

/-- A formatted datetime always contains the letter T. -/
theorem hasT_isoFmt (y mo d h mi s : Nat) (off : List Char) :
    hasT (isoFmt y mo d h mi s off) = true := by
  unfold hasT
  apply decide_eq_true
  unfold isoFmt
  apply List.mem_append_right
  apply List.mem_cons_of_mem
  apply List.mem_append_right
  apply List.mem_cons_of_mem
  apply List.mem_append_right
  exact List.mem_cons_self _ _

/-- The replacement of Z distributes over append. -/
theorem replaceZ_append (a b : List Char) :
    replaceZ (a ++ b) = replaceZ a ++ replaceZ b := by
  induction a with
  | nil => rfl
  | cons c t ih =>
    show replaceZ (c :: (t ++ b)) = _
    rw [replaceZ, ih, replaceZ, List.append_assoc]

/-- The replacement of Z fixes a list with no Z. -/
theorem replaceZ_of_no_Z :
    ∀ (a : List Char), (∀ c ∈ a, (c == 'Z') = false) → replaceZ a = a := by
  intro a
  induction a with
  | nil => exact fun _ => rfl
  | cons c t ih =>
    intro h
    have hc := h c (List.mem_cons_self c t)
    have ht := ih (fun x hx => h x (List.mem_cons_of_mem c hx))
    rw [replaceZ, hc, ht]
    rfl

/-- The replacement of Z passes through the fixed datetime text and acts
only on the offset text. -/
theorem replaceZ_isoFmt (y mo d h mi s : Nat) (off : List Char) :
    replaceZ (isoFmt y mo d h mi s off) =
      isoFmt y mo d h mi s (replaceZ off) := by
  have rzDash : ∀ t : List Char, replaceZ ('-' :: t) = '-' :: replaceZ t := by
    intro t; rw [replaceZ]; rfl
  have rzColon : ∀ t : List Char, replaceZ (':' :: t) = ':' :: replaceZ t := by
    intro t; rw [replaceZ]; rfl
  have rzT : ∀ t : List Char, replaceZ ('T' :: t) = 'T' :: replaceZ t := by
    intro t; rw [replaceZ]; rfl
  unfold isoFmt
  rw [replaceZ_append, replaceZ_of_no_Z _ (pad4_ne_Z y), rzDash,
    replaceZ_append, replaceZ_of_no_Z _ (pad2_ne_Z mo), rzDash,
    replaceZ_append, replaceZ_of_no_Z _ (pad2_ne_Z d), rzT,
    replaceZ_append, replaceZ_of_no_Z _ (pad2_ne_Z h), rzColon,
    replaceZ_append, replaceZ_of_no_Z _ (pad2_ne_Z mi), rzColon,
    replaceZ_append, replaceZ_of_no_Z _ (pad2_ne_Z s)]

/-- A signed numeric offset parses, whatever its value. -/
theorem parseTz_pads (oh om : Nat) (sign : Char)
    (hsign : sign = '+' ∨ sign = '-') (hoh : oh ≤ 23) (hom : om ≤ 59) :
    ∃ v : Int, parseTz (sign :: (pad2 oh ++ ':' :: pad2 om)) =
      some (some v, []) := by
  have eoh : oh % 100 = oh := Nat.mod_eq_of_lt (by omega)
  have eom : om % 100 = om := Nat.mod_eq_of_lt (by omega)
  rcases hsign with rfl | rfl
  · refine ⟨(oh : Int) * 60 + om, ?_⟩
    simp [parseTz, parse2_pad2, parse2_pad2_nil, expectChar_colon, expectChar,
      eoh, eom, hoh, hom]
    try omega
  · refine ⟨-((oh : Int) * 60 + om), ?_⟩
    simp [parseTz, parse2_pad2, parse2_pad2_nil, expectChar_colon, expectChar,
      eoh, eom, hoh, hom]
    try omega

/-- The core parser recovers exactly the written wall-clock fields from a
formatted datetime whose offset text parses, returning the offset alongside
but never folding it into the fields. -/
theorem fromisoCore_isoFmt (y mo d h mi s : Nat) (off : List Char)
    (offv : Option Int) (hy : 1 ≤ y) (hy2 : y ≤ 9999) (hmo1 : 1 ≤ mo)
    (hmo : mo ≤ 12) (hd1 : 1 ≤ d) (hd : d ≤ daysInMonth y mo) (hh : h ≤ 23)
    (hmi : mi ≤ 59) (hs : s ≤ 59)
    (hoff : parseTz off = some (offv, [])) :
    fromisoCore (isoFmt y mo d h mi s off) =
      some (⟨y, mo, d, h, mi, s⟩, offv) := by
  have ey : y % 10000 = y := Nat.mod_eq_of_lt (by omega)
  have emo : mo % 100 = mo := Nat.mod_eq_of_lt (by omega)
  have hd31 := daysInMonth_le_31 y mo
  have ed : d % 100 = d := Nat.mod_eq_of_lt (by omega)
  have eh : h % 100 = h := Nat.mod_eq_of_lt (by omega)
  have emi : mi % 100 = mi := Nat.mod_eq_of_lt (by omega)
  have es : s % 100 = s := Nat.mod_eq_of_lt (by omega)
  simp [isoFmt, fromisoCore, parseHMS, parse4_pad4, parse2_pad2,
    expectChar_dash, expectChar_colon, ey, emo, ed, eh, emi, es, hoff,
    hy, hmo1, hmo, hd1, hd, hh, hmi, hs]

/-- A formatted datetime whose replaced text is a formatted datetime with a
parsing offset goes through the whole datetime parsing to exactly its
written wall-clock fields. -/
theorem parse_datetime_isoFmt (y mo d h mi s : Nat) (off off2 : List Char)
    (offv : Option Int) (hy : 1 ≤ y) (hy2 : y ≤ 9999) (hmo1 : 1 ≤ mo)
    (hmo : mo ≤ 12) (hd1 : 1 ≤ d) (hd : d ≤ daysInMonth y mo) (hh : h ≤ 23)
    (hmi : mi ≤ 59) (hs : s ≤ 59)
    (hoff : parseTz off2 = some (offv, []))
    (hnsp : ∀ c ∈ isoFmt y mo d h mi s off, isSpaceChar c = false)
    (hrz : replaceZ (isoFmt y mo d h mi s off) = isoFmt y mo d h mi s off2) :
    parse_datetime (isoFmt y mo d h mi s off) =
      Except.ok (some ⟨y, mo, d, h, mi, s⟩) := by
  have hstrip := stripChars_of_no_space hnsp
  have hT := hasT_isoFmt y mo d h mi s off
  have hcore := fromisoCore_isoFmt y mo d h mi s off2 offv hy hy2 hmo1 hmo
    hd1 hd hh hmi hs hoff
  unfold parse_datetime parseDatetimeBody fromisoformat
  simp only [hstrip, hT, hrz, hcore, if_true]

/-- Claim C5: every well-formed ISO-8601 datetime with a numeric UTC offset
or a trailing Z parses to the timezone-naive datetime whose fields are the
written wall-clock reading, the offset being discarded rather than
applied. -/
theorem claim_c5_parse_datetime_offset_dropped (y mo d h mi s oh om : Nat)
    (useZ neg : Bool) (hy : 1 ≤ y) (hy2 : y ≤ 9999) (hmo1 : 1 ≤ mo)
    (hmo : mo ≤ 12) (hd1 : 1 ≤ d) (hd : d ≤ daysInMonth y mo) (hh : h ≤ 23)
    (hmi : mi ≤ 59) (hs : s ≤ 59) (hoh : oh ≤ 23) (hom : om ≤ 59) :
    parse_datetime (formatISO y mo d h mi s useZ neg oh om) =
      Except.ok (some ⟨y, mo, d, h, mi, s⟩) := by
  have hchars := formatISO_chars y mo d h mi s useZ neg oh om
  by_cases huz : useZ = true
  · subst huz
    show parse_datetime (isoFmt y mo d h mi s ['Z']) = _
    obtain ⟨v, hv⟩ := parseTz_pads 0 0 '+' (Or.inl rfl) (by omega) (by omega)
    have htail : replaceZ (['Z'] : List Char) = '+' :: (pad2 0 ++ ':' :: pad2 0) := by
      decide
    refine parse_datetime_isoFmt y mo d h mi s ['Z']
      ('+' :: (pad2 0 ++ ':' :: pad2 0)) (some v) hy hy2 hmo1 hmo hd1 hd hh
      hmi hs hv (fun c hc => (hchars c hc).1) ?_
    rw [replaceZ_isoFmt, htail]
  · have huzf : useZ = false := by
      cases useZ
      · rfl
      · exact absurd rfl huz
    subst huzf
    show parse_datetime
      (isoFmt y mo d h mi s
        ((if neg then '-' else '+') :: (pad2 oh ++ ':' :: pad2 om))) = _
    obtain ⟨v, hv⟩ := parseTz_pads oh om (if neg then '-' else '+')
      (by cases neg <;> simp) hoh hom
    refine parse_datetime_isoFmt y mo d h mi s _ _ (some v) hy hy2 hmo1 hmo
      hd1 hd hh hmi hs hv (fun c hc => (hchars c hc).1) ?_
    exact replaceZ_of_no_Z _ (fun c hc => (hchars c hc).2 rfl)

/-- Witness for claim C5 at the concrete timestamp of the specification:
the formatter writes exactly that string, and parsing it drops the -08:00
offset without applying it. -/
theorem claim_c5_parse_datetime_offset_dropped_witness :
    formatISO 2026 1 15 18 0 0 false true 8 0 =
      "2026-01-15T18:00:00-08:00".data ∧
    parse_datetime "2026-01-15T18:00:00-08:00".data =
      Except.ok (some ⟨2026, 1, 15, 18, 0, 0⟩) := by
  have he : formatISO 2026 1 15 18 0 0 false true 8 0 =
      "2026-01-15T18:00:00-08:00".data := by decide
  have h := claim_c5_parse_datetime_offset_dropped 2026 1 15 18 0 0 8 0
    false true (by decide) (by decide) (by decide) (by decide) (by decide)
    (by decide) (by decide) (by decide) (by decide) (by decide) (by decide)
  refine ⟨he, ?_⟩
  rw [← he]
  exact h

end ColgoStevenson
